import Mathlib

/-!
Verification of the teleinfo-parser core (src/frame.rs and src/hc.rs).

Shallow embedding conventions:
- The serial byte source is modelled as a `List Nat` of byte values; the
  Rust `Read`-based primitives become functions that return the value read
  together with the remaining input.
- Rust `u8` wrapping arithmetic is `Nat` arithmetic with explicit `% 256`.
- Rust `Result<_, TeleinfoError>` becomes `Except TeleinfoError _`.
- The `read_frame` loop is defined with a fuel parameter equal to the
  input length plus one; every loop iteration consumes at least one input
  byte, so the zero-fuel branch (which mirrors reading from an exhausted
  source) is never reached from `read_frame`.
- `Local::now()` in `HcInfos::from` is an environment input; it is made an
  explicit parameter of abstract type `DateTime`.
- The Rust `panic!` in `HcInfos::from` is modelled by a dedicated
  `HcResult.panic` outcome, distinct from returned error values.
-/

/-- Abstract wall-clock timestamp, standing for chrono's `DateTime<Local>`.
The extraction code never inspects it; it only stores it. -/
structure DateTime where
  stamp : Nat
deriving DecidableEq

/-- The subscribed tariff option (src/frame.rs `OptionTarifaire`). -/
inductive OptionTarifaire where
  | Base
  | HC
  | EJP
  | UNKNOWN (raw : List Nat)
deriving DecidableEq

/-- The current period for the frame (src/frame.rs `PeriodeTarifaire`). -/
inductive PeriodeTarifaire where
  | TH
  | HC
  | HP
  | UNKNOWN (raw : List Nat)
deriving DecidableEq

/-- The different tags that can compose a frame (src/frame.rs `Tag`).
Rust `String` payloads are byte lists; `i32` payloads are `Int`
(the parser below enforces the i32 range); the `HHPHC` char is a byte. -/
inductive Tag where
  | ADCO (s : List Nat)
  | OPTARIF (o : OptionTarifaire)
  | ISOUSC (v : Int)
  | BASE (v : Int)
  | HCHC (v : Int)
  | HCHP (v : Int)
  | PTEC (p : PeriodeTarifaire)
  | IINST (v : Int)
  | ADPS (v : Int)
  | IMAX (v : Int)
  | PAPP (v : Int)
  | HHPHC (c : Nat)
  | MOTDETAT (s : List Nat)
  | UNKNOWN (lbl : List Nat) (val : List Nat)
deriving DecidableEq

/-- A parsed and valid frame (src/frame.rs `Frame`). -/
structure Frame where
  tags : List Tag
deriving DecidableEq

/-- Errors when reading frames (src/frame.rs `TeleinfoError`).
`IoError` wraps a lower-level I/O failure; the in-memory byte-list source
modelled here never produces one, but the constructor is kept so the type
mirrors the source. -/
inductive TeleinfoError where
  | EndOfFile
  | IoError
  | EndOfTransmission
  | FrameError (msg : String)
  | ChecksumError
deriving DecidableEq

deriving instance DecidableEq for Except

/-- Byte values of a string literal, used for the label dispatch table. -/
def strBytes (s : String) : List Nat := s.data.map Char.toNat

/-- Render a byte list as a string, for error messages
(mirrors Rust formatting of the label/value `String`s). -/
def bytesToString (s : List Nat) : String := String.mk (s.map Char.ofNat)

/-- src/frame.rs `checksum`: wrapping u8 sum of the label chars, one
separator byte (0x20) and the value chars, masked to 6 bits, plus 0x20.
Rust's `c as u8` is `c % 256`; `wrapping_add` is addition `% 256`. -/
def checksum (lbl val : List Nat) : Nat :=
  ((val.foldl (fun s c => (s + c % 256) % 256)
    ((lbl.foldl (fun s c => (s + c % 256) % 256) 0 + 32) % 256)) &&& 0x3F) + 0x20

/-- Is the byte an ASCII decimal digit? -/
def isDigitByte (c : Nat) : Bool := 48 ≤ c && c ≤ 57

/-- Accumulate a base-10 digit string; `none` on any non-digit byte. -/
def digitsVal : List Nat → Nat → Option Nat
  | [], acc => some acc
  | c :: rest, acc =>
    if isDigitByte c then digitsVal rest (acc * 10 + (c - 48)) else none

/-- Model of Rust `val.parse::<i32>()`: optional sign, at least one digit,
all bytes digits, result within the i32 range (overflow is an error). -/
def parseI32 (s : List Nat) : Option Int :=
  match s with
  | [] => none
  | 43 :: rest =>
    match rest with
    | [] => none
    | _ :: _ =>
      match digitsVal rest 0 with
      | some n => if n ≤ 2147483647 then some (Int.ofNat n) else none
      | none => none
  | 45 :: rest =>
    match rest with
    | [] => none
    | _ :: _ =>
      match digitsVal rest 0 with
      | some n => if n ≤ 2147483648 then some (-(Int.ofNat n)) else none
      | none => none
  | _ =>
    match digitsVal s 0 with
    | some n => if n ≤ 2147483647 then some (Int.ofNat n) else none
    | none => none

/-- The repeated `val.parse::<i32>().map_err(...)` pattern of `parse_tag`:
parse the value as i32 or fail with the number-parse `FrameError`. -/
def numTag (mk : Int → Tag) (val : List Nat) : Except TeleinfoError Tag :=
  match parseI32 val with
  | some v => .ok (mk v)
  | none => .error (.FrameError ("Number parse error on " ++ bytesToString val))

/-- src/frame.rs `parse_tag`: dispatch on the label; unrecognized labels
become `Tag.UNKNOWN`, unknown enum literals become the `UNKNOWN` arms. -/
def parse_tag (lbl val : List Nat) : Except TeleinfoError Tag :=
  if lbl = strBytes "ADCO" then .ok (.ADCO val)
  else if lbl = strBytes "OPTARIF" then
    .ok (.OPTARIF (
      if val = strBytes "Base" then .Base
      else if val = strBytes "HC.." then .HC
      else if val = strBytes "EJP." then .EJP
      else .UNKNOWN val))
  else if lbl = strBytes "ISOUSC" then numTag Tag.ISOUSC val
  else if lbl = strBytes "BASE" then numTag Tag.BASE val
  else if lbl = strBytes "HCHC" then numTag Tag.HCHC val
  else if lbl = strBytes "HCHP" then numTag Tag.HCHP val
  else if lbl = strBytes "PTEC" then
    .ok (.PTEC (
      if val = strBytes "TH.." then .TH
      else if val = strBytes "HC.." then .HC
      else if val = strBytes "HP.." then .HP
      else .UNKNOWN val))
  else if lbl = strBytes "IINST" then numTag Tag.IINST val
  else if lbl = strBytes "IMAX" then numTag Tag.IMAX val
  else if lbl = strBytes "ADPS" then numTag Tag.ADPS val
  else if lbl = strBytes "PAPP" then numTag Tag.PAPP val
  else if lbl = strBytes "HHPHC" then
    match val with
    | [] => .error (.FrameError "HHPHC should be one char long")
    | c :: _ => .ok (.HHPHC c)
  else if lbl = strBytes "MOTDETAT" then .ok (.MOTDETAT val)
  else .ok (.UNKNOWN lbl val)

/-- src/frame.rs `read_char`: one byte, `EndOfFile` on exhausted input,
`EndOfTransmission` on the EOT byte (0x04). -/
def read_char : List Nat → Except TeleinfoError (Nat × List Nat)
  | [] => .error .EndOfFile
  | c :: rest => if c = 4 then .error .EndOfTransmission else .ok (c, rest)

/-- src/frame.rs `read_to_sep`: bytes up to (excluding) the separator. -/
def read_to_sep : List Nat → Except TeleinfoError (List Nat × List Nat)
  | [] => .error .EndOfFile
  | c :: rest =>
    if c = 4 then .error .EndOfTransmission
    else if c = 32 then .ok ([], rest)
    else
      match read_to_sep rest with
      | .ok (s, r) => .ok (c :: s, r)
      | .error e => .error e

/-- src/frame.rs `expect_char`. -/
def expect_char (input : List Nat) (expected : Nat) : Except TeleinfoError (List Nat) :=
  match read_char input with
  | .error e => .error e
  | .ok (c, rest) =>
    if c = expected then .ok rest
    else .error (.FrameError ("Expected " ++ (Char.ofNat expected).toString
      ++ " but found " ++ (Char.ofNat c).toString))

/-- src/frame.rs `skip_to`: discard bytes until `stop` (inclusive). -/
def skip_to : List Nat → Nat → Except TeleinfoError (List Nat)
  | [], _ => .error .EndOfFile
  | c :: rest, stop =>
    if c = 4 then .error .EndOfTransmission
    else if c = stop then .ok rest
    else skip_to rest stop

/-- The loop of src/frame.rs `read_frame`, with explicit fuel. Each
iteration reads one group: LF, label, value, checksum byte, tag decode,
CR; ETX ends the frame. Every iteration consumes at least one byte, so
with fuel above the input length the zero-fuel branch is unreachable
(its value mirrors reading from the then-necessarily-empty input). -/
def read_frame_aux : Nat → List Nat → Except TeleinfoError (List Tag)
  | 0, _ => .error .EndOfFile
  | fuel + 1, input =>
    match read_char input with
    | .error e => .error e
    | .ok (c, r1) =>
      if c = 3 then .ok []
      else if c ≠ 10 then
        .error (.FrameError ("Expected LF but found " ++ (Char.ofNat c).toString))
      else
        match read_to_sep r1 with
        | .error e => .error e
        | .ok (lbl, r2) =>
          match read_to_sep r2 with
          | .error e => .error e
          | .ok (val, r3) =>
            match read_char r3 with
            | .error e => .error e
            | .ok (ck, r4) =>
              if ck ≠ checksum lbl val then .error .ChecksumError
              else
                match parse_tag lbl val with
                | .error e => .error e
                | .ok tag =>
                  match expect_char r4 13 with
                  | .error e => .error e
                  | .ok r5 =>
                    match read_frame_aux fuel r5 with
                    | .error e => .error e
                    | .ok tags => .ok (tag :: tags)

/-- src/frame.rs `read_frame`. -/
def read_frame (input : List Nat) : Except TeleinfoError Frame :=
  match read_frame_aux (input.length + 1) input with
  | .ok tags => .ok ⟨tags⟩
  | .error e => .error e

/-- src/frame.rs `Frame::next_frame`: synchronize to STX then read. -/
def Frame.next_frame (input : List Nat) : Except TeleinfoError Frame :=
  match skip_to input 2 with
  | .error e => .error e
  | .ok rest => read_frame rest

/-- All the informations extracted for the Heures Creuses tariff option
(src/hc.rs `HcInfos`). -/
structure HcInfos where
  date : DateTime
  periode : String
  hc : Int
  hp : Int
  iinst : Int
  papp : Int
  alerte : Bool
deriving DecidableEq

/-- src/hc.rs `HcInfosBuilder`. -/
structure HcInfosBuilder where
  date : Option DateTime
  periode : Option String
  hc : Option Int
  hp : Option Int
  iinst : Option Int
  papp : Option Int
  alerte : Bool
deriving DecidableEq

/-- src/hc.rs `HcInfosBuilder::new`. -/
def HcInfosBuilder.new : HcInfosBuilder :=
  ⟨none, none, none, none, none, none, false⟩

/-- Outcome of `HcInfos::from`: a record, a returned error value, or a
process abort through the Rust `panic!` macro (modelled as a separate
outcome since it is not a returned value). -/
inductive HcResult where
  | ok (infos : HcInfos)
  | err (e : TeleinfoError)
  | panic (msg : String)
deriving DecidableEq

/-- One iteration of the tag loop in src/hc.rs `HcInfos::from`, as a
builder update; the out-of-plan PTEC arms reach the `panic!` call, whose
message is returned in the error component. -/
def applyTag (b : HcInfosBuilder) : Tag → Except String HcInfosBuilder
  | .PTEC p =>
    match p with
    | .HP => .ok { b with periode := some "HP" }
    | .HC => .ok { b with periode := some "HC" }
    | _ => .error "PeriodeTarifaire does not match HC"
  | .HCHC v => .ok { b with hc := some v }
  | .HCHP v => .ok { b with hp := some v }
  | .IINST v => .ok { b with iinst := some v }
  | .PAPP v => .ok { b with papp := some v }
  | .ADPS _ => .ok { b with alerte := true }
  | _ => .ok b

/-- The tag loop of src/hc.rs `HcInfos::from`. -/
def applyTags (b : HcInfosBuilder) : List Tag → Except String HcInfosBuilder
  | [] => .ok b
  | t :: ts =>
    match applyTag b t with
    | .ok b2 => applyTags b2 ts
    | .error m => .error m

/-- src/hc.rs `HcInfosBuilder::build`: the `get!` checks in source order
(date, periode, hc, hp, iinst, papp); the first missing slot wins. -/
def HcInfosBuilder.build (b : HcInfosBuilder) : Except TeleinfoError HcInfos :=
  match b.date, b.periode, b.hc, b.hp, b.iinst, b.papp with
  | none, _, _, _, _, _ => .error (.FrameError "Missing date")
  | _, none, _, _, _, _ => .error (.FrameError "Missing periode")
  | _, _, none, _, _, _ => .error (.FrameError "Missing hc")
  | _, _, _, none, _, _ => .error (.FrameError "Missing hp")
  | _, _, _, _, none, _ => .error (.FrameError "Missing iinst")
  | _, _, _, _, _, none => .error (.FrameError "Missing papp")
  | some d, some p, some hcv, some hpv, some iv, some pv =>
    .ok ⟨d, p, hcv, hpv, iv, pv, b.alerte⟩

/-- src/hc.rs `HcInfos::from` (`from` is a Lean keyword, hence the name):
stamp the builder with the capture time, fold the tags, finalize. -/
def HcInfos.fromFrame (now : DateTime) (frame : Frame) : HcResult :=
  match applyTags { HcInfosBuilder.new with date := some now } frame.tags with
  | .error msg => .panic msg
  | .ok b2 =>
    match b2.build with
    | .ok infos => .ok infos
    | .error e => .err e

/-- Modelled from the spec: `checksum = ((sum(label bytes) + separator +
sum(value bytes)) & 0x3F) + 0x20`, the sums taken wrapping mod 256.
This is the spec's wording of the formula, kept separate from the
source-derived `checksum` so the two can be compared. -/
def checksum_spec (lbl val : List Nat) : Nat :=
  (((lbl.sum + 32 + val.sum) % 256) &&& 0x3F) + 0x20

lemma and63_le (x : Nat) : x &&& 63 ≤ 63 := Nat.and_le_right

/-- The computed checksum always lies in the printable window
`[0x20, 0x5F]`. -/
lemma checksum_range (lbl val : List Nat) :
    32 ≤ checksum lbl val ∧ checksum lbl val ≤ 95 := by
  have h := and63_le (val.foldl (fun s c => (s + c % 256) % 256)
    ((lbl.foldl (fun s c => (s + c % 256) % 256) 0 + 32) % 256))
  unfold checksum
  omega

/-- The wrapping byte-sum fold equals the plain sum taken mod 256. -/
lemma foldl_wrap (l : List Nat) : ∀ a : Nat, a < 256 →
    l.foldl (fun s c => (s + c % 256) % 256) a
      = (a + (l.map (fun c => c % 256)).sum) % 256 := by
  induction l with
  | nil => intro a ha; simp [Nat.mod_eq_of_lt ha]
  | cons c l ih =>
    intro a ha
    simp only [List.foldl_cons, List.map_cons, List.sum_cons]
    rw [ih _ (Nat.mod_lt _ (by omega))]
    omega

/-- Reducing each entry mod 256 is the identity on byte lists. -/
lemma map_mod_of_lt : ∀ (m : List Nat), (∀ b ∈ m, b < 256) →
    m.map (fun c => c % 256) = m := by
  intro m hm
  induction m with
  | nil => rfl
  | cons x xs ih =>
    simp only [List.map_cons]
    rw [Nat.mod_eq_of_lt (hm x (by simp))]
    rw [ih (fun b hb => hm b (by simp [hb]))]

/-- On byte inputs the source checksum computes exactly the spec formula. -/
lemma checksum_eq_spec (lbl val : List Nat) (hl : ∀ b ∈ lbl, b < 256)
    (hv : ∀ b ∈ val, b < 256) : checksum lbl val = checksum_spec lbl val := by
  unfold checksum checksum_spec
  rw [foldl_wrap lbl 0 (by omega)]
  rw [map_mod_of_lt lbl hl]
  rw [foldl_wrap val _ (Nat.mod_lt _ (by omega))]
  rw [map_mod_of_lt val hv]
  have h : (((0 + lbl.sum) % 256 + 32) % 256 + val.sum) % 256
      = (lbl.sum + 32 + val.sum) % 256 := by omega
  rw [h]

/-- C3: the checksum is a pure function of the label and value byte
strings, computed as the wrapping byte sum of the label bytes, one
separator byte (0x20) and the value bytes, masked to the low 6 bits,
plus 0x20; for label "PAPP" and value "00380" it is ',' (0x2C). -/
theorem checksum_pure_formula :
    (∀ lbl val : List Nat, (∀ b ∈ lbl, b < 256) → (∀ b ∈ val, b < 256) →
      checksum lbl val = checksum_spec lbl val) ∧
    checksum (strBytes "PAPP") (strBytes "00380") = 0x2C :=
  ⟨checksum_eq_spec, by decide⟩

/-- Witness for C3: the formula part applied at the concrete input
"PAPP"/"00380". -/
theorem checksum_pure_formula_witness :
    checksum (strBytes "PAPP") (strBytes "00380")
      = checksum_spec (strBytes "PAPP") (strBytes "00380") :=
  checksum_pure_formula.1 (strBytes "PAPP") (strBytes "00380")
    (by decide) (by decide)

/-- C6: decoding label "BASE" with value "99" yields the Base-index tag
with integer 99, and an unrecognized label "XYZ" with value "123" yields
the `UNKNOWN` tag keeping both raw strings, not an error. -/
theorem parse_tag_base_and_unknown :
    parse_tag (strBytes "BASE") (strBytes "99") = .ok (.BASE 99) ∧
    parse_tag (strBytes "XYZ") (strBytes "123")
      = .ok (.UNKNOWN (strBytes "XYZ") (strBytes "123")) := by
  constructor <;> decide

/-- C10: for every label and value the checksum lies in `[0x20, 0x5F]`;
consequently a received checksum byte outside that range never equals
the computed checksum. -/
theorem checksum_printable_range (lbl val : List Nat) :
    (32 ≤ checksum lbl val ∧ checksum lbl val ≤ 95) ∧
    (∀ b : Nat, b < 32 ∨ 95 < b → b ≠ checksum lbl val) := by
  have h := checksum_range lbl val
  exact ⟨h, fun b hb heq => by omega⟩

/-- Witness for C10: at label "PAPP", value "00380", the byte 0x03 is
outside the printable window and indeed differs from the checksum. -/
theorem checksum_printable_range_witness :
    (3 < 32 ∨ 95 < 3) ∧ 3 ≠ checksum (strBytes "PAPP") (strBytes "00380") :=
  ⟨by decide,
    (checksum_printable_range (strBytes "PAPP") (strBytes "00380")).2 3 (by decide)⟩

/-- The period label the extraction records for a tag, when it records
one: only the two in-plan PTEC variants yield a label. -/
def periodeOf : Tag → Option String
  | .PTEC .HP => some "HP"
  | .PTEC .HC => some "HC"
  | _ => none

/-- The low-rate index payload recorded for a tag, if any. -/
def hcOf : Tag → Option Int
  | .HCHC v => some v
  | _ => none

/-- The high-rate index payload recorded for a tag, if any. -/
def hpOf : Tag → Option Int
  | .HCHP v => some v
  | _ => none

/-- The instantaneous-current payload recorded for a tag, if any. -/
def iinstOf : Tag → Option Int
  | .IINST v => some v
  | _ => none

/-- The apparent-power payload recorded for a tag, if any. -/
def pappOf : Tag → Option Int
  | .PAPP v => some v
  | _ => none

/-- Is the tag the over-current warning tag? -/
def isADPS : Tag → Bool
  | .ADPS _ => true
  | _ => false

/-- Does the tag avoid the `panic!` arm of the extraction loop?
(True for every tag except a PTEC carrying TH or an unknown literal.) -/
def ptecInPlan : Tag → Bool
  | .PTEC .HP => true
  | .PTEC .HC => true
  | .PTEC _ => false
  | _ => true

/-- The value of an optional slot after writing every element of the
list into it in order: the last element if there is one, else the
initial content. -/
def lastSet {α : Type} : List α → Option α → Option α
  | [], d => d
  | x :: l, _ => lastSet l (some x)

lemma lastSet_cons {α : Type} (x : α) (l : List α) (d : Option α) :
    lastSet (x :: l) d = lastSet l (some x) := rfl

lemma lastSet_getLast? {α : Type} : ∀ (l : List α) (d : Option α), l ≠ [] →
    lastSet l d = l.getLast? := by
  intro l
  induction l with
  | nil => intro d h; exact absurd rfl h
  | cons x xs ih =>
    intro d _
    cases xs with
    | nil => rfl
    | cons y ys =>
      rw [lastSet_cons, ih _ (by simp), List.getLast?_cons_cons]

lemma lastSet_none_ne_nil {α : Type} {l : List α} {v : α}
    (h : lastSet l none = some v) : l ≠ [] := by
  intro he
  subst he
  simp [lastSet] at h

lemma lastSet_none_getLast? {α : Type} {l : List α} {v : α}
    (h : lastSet l none = some v) : l.getLast? = some v := by
  rw [← lastSet_getLast? l none (lastSet_none_ne_nil h)]
  exact h

lemma lastSet_ne_nil_some {α : Type} (l : List α) (d : Option α) (h : l ≠ []) :
    ∃ v, lastSet l d = some v := by
  rw [lastSet_getLast? l d h]
  rw [← Option.isSome_iff_exists]
  simp [List.getLast?_isSome, h]

/-- What the tag loop of `HcInfos::from` does to each builder slot, when
it completes without hitting the `panic!` arm: each recorded slot holds
the last written payload, the date is untouched, and the alert flag is
the old flag or the presence of an ADPS tag. -/
lemma applyTags_fields : ∀ (ts : List Tag) (b b2 : HcInfosBuilder),
    applyTags b ts = .ok b2 →
    b2.date = b.date ∧
    b2.periode = lastSet (ts.filterMap periodeOf) b.periode ∧
    b2.hc = lastSet (ts.filterMap hcOf) b.hc ∧
    b2.hp = lastSet (ts.filterMap hpOf) b.hp ∧
    b2.iinst = lastSet (ts.filterMap iinstOf) b.iinst ∧
    b2.papp = lastSet (ts.filterMap pappOf) b.papp ∧
    b2.alerte = (b.alerte || ts.any isADPS) := by
  intro ts
  induction ts with
  | nil =>
    intro b b2 h
    simp only [applyTags] at h
    cases h
    simp [lastSet]
  | cons t ts ih =>
    intro b b2 h
    cases t <;> try (cases ‹PeriodeTarifaire›)
    all_goals simp only [applyTags, applyTag] at h
    any_goals exact Except.noConfusion h
    all_goals obtain ⟨h1, h2, h3, h4, h5, h6, h7⟩ := ih _ _ h
    all_goals
      simp_all [List.filterMap_cons, List.any_cons, periodeOf, hcOf, hpOf,
        iinstOf, pappOf, isADPS, lastSet_cons]

/-- The tag loop completes without panicking as soon as every PTEC tag
in the frame is one of the two in-plan variants. -/
lemma applyTags_ok_of_inPlan : ∀ (ts : List Tag) (b : HcInfosBuilder),
    ts.all ptecInPlan = true → ∃ b2, applyTags b ts = .ok b2 := by
  intro ts
  induction ts with
  | nil => intro b _; exact ⟨b, rfl⟩
  | cons t ts ih =>
    intro b hall
    simp only [List.all_cons, Bool.and_eq_true] at hall
    cases t <;> try (cases ‹PeriodeTarifaire›)
    all_goals first
      | (simp only [applyTags, applyTag]; exact ih _ hall.2)
      | simp [ptecInPlan] at hall

/-- A successful finalize pins every builder slot to the record field. -/
lemma build_fields : ∀ (b : HcInfosBuilder) (r : HcInfos),
    b.build = .ok r →
    b.date = some r.date ∧ b.periode = some r.periode ∧ b.hc = some r.hc ∧
    b.hp = some r.hp ∧ b.iinst = some r.iinst ∧ b.papp = some r.papp ∧
    r.alerte = b.alerte := by
  intro b r h
  rcases b with ⟨d, p, x1, x2, x3, x4, al⟩
  cases d <;> cases p <;> cases x1 <;> cases x2 <;> cases x3 <;> cases x4 <;>
      dsimp only [HcInfosBuilder.build] at h <;>
    first
      | exact Except.noConfusion h
      | (cases h; simp)

/-- Elimination form of a successful extraction. -/
lemma fromFrame_ok_elim : ∀ (now : DateTime) (f : Frame) (r : HcInfos),
    HcInfos.fromFrame now f = .ok r →
    ∃ b2, applyTags { HcInfosBuilder.new with date := some now } f.tags = .ok b2 ∧
      HcInfosBuilder.build b2 = .ok r := by
  intro now f r h
  unfold HcInfos.fromFrame at h
  cases happ : applyTags { HcInfosBuilder.new with date := some now } f.tags with
  | error m =>
    rw [happ] at h
    dsimp only at h
    exact HcResult.noConfusion h
  | ok b2 =>
    rw [happ] at h
    dsimp only at h
    cases hb : HcInfosBuilder.build b2 with
    | ok infos =>
      rw [hb] at h
      dsimp only at h
      cases h
      exact ⟨b2, rfl, hb⟩
    | error e =>
      rw [hb] at h
      dsimp only at h
      exact HcResult.noConfusion h

lemma any_isSome_filterMap_ne_nil {β : Type} {f : Tag → Option β} {ts : List Tag}
    (h : ts.any (fun t => (f t).isSome) = true) : ts.filterMap f ≠ [] := by
  rw [List.any_eq_true] at h
  obtain ⟨a, ha, hfa⟩ := h
  rw [Option.isSome_iff_exists] at hfa
  obtain ⟨v, hv⟩ := hfa
  intro hnil
  have hm : v ∈ ts.filterMap f := List.mem_filterMap.mpr ⟨a, ha, hv⟩
  rw [hnil] at hm
  exact List.not_mem_nil v hm

lemma filterMap_ne_nil_any {β : Type} {f : Tag → Option β} {ts : List Tag}
    (h : ts.filterMap f ≠ []) : ts.any (fun t => (f t).isSome) = true := by
  cases hl : ts.filterMap f with
  | nil => exact absurd hl h
  | cons x xs =>
    have hx : x ∈ ts.filterMap f := by rw [hl]; simp
    rw [List.mem_filterMap] at hx
    obtain ⟨a, ha, hfa⟩ := hx
    rw [List.any_eq_true]
    exact ⟨a, ha, by simp [hfa]⟩

lemma not_any_isSome_filterMap_nil {β : Type} {f : Tag → Option β} {ts : List Tag}
    (h : ts.any (fun t => (f t).isSome) = false) : ts.filterMap f = [] := by
  rw [List.any_eq_false] at h
  rw [List.filterMap_eq_nil_iff]
  intro a ha
  have := h a ha
  simpa using this

/-- The frame contains an in-plan period tag. -/
def hasPeriode (f : Frame) : Bool := f.tags.any fun t => (periodeOf t).isSome

/-- The frame contains a low-rate index tag. -/
def hasHc (f : Frame) : Bool := f.tags.any fun t => (hcOf t).isSome

/-- The frame contains a high-rate index tag. -/
def hasHp (f : Frame) : Bool := f.tags.any fun t => (hpOf t).isSome

/-- The frame contains an instantaneous-current tag. -/
def hasIinst (f : Frame) : Bool := f.tags.any fun t => (iinstOf t).isSome

/-- The frame contains an apparent-power tag. -/
def hasPapp (f : Frame) : Bool := f.tags.any fun t => (pappOf t).isSome

/-- C1 (code evaluation): on a frame whose PTEC tag carries the
Toutes-Heures variant, and likewise the Unknown variant, extraction hits
the `panic!` arm and aborts instead of returning a tagged error value,
contradicting the claimed error-path behaviour. -/
theorem hc_from_panics_on_out_of_plan_ptec :
    HcInfos.fromFrame ⟨0⟩ ⟨[.PTEC .TH]⟩
      = .panic "PeriodeTarifaire does not match HC" ∧
    HcInfos.fromFrame ⟨0⟩ ⟨[.PTEC (.UNKNOWN (strBytes "XX.."))]⟩
      = .panic "PeriodeTarifaire does not match HC" := by
  constructor <;> rfl

/-- C2: a frame with every mandatory tag except PAPP makes extraction
fail with the error naming "papp", and extraction never returns a record
while any mandatory field is missing. -/
theorem hc_from_missing_papp (now : DateTime) (f : Frame) :
    (f.tags.all ptecInPlan = true → hasPeriode f = true → hasHc f = true →
      hasHp f = true → hasIinst f = true → hasPapp f = false →
      HcInfos.fromFrame now f = .err (.FrameError "Missing papp")) ∧
    (∀ r : HcInfos, HcInfos.fromFrame now f = .ok r →
      hasPeriode f = true ∧ hasHc f = true ∧ hasHp f = true ∧
      hasIinst f = true ∧ hasPapp f = true) := by
  constructor
  · intro hall hper hhc hhp hii hpa
    obtain ⟨b2, hb2⟩ := applyTags_ok_of_inPlan f.tags
      { HcInfosBuilder.new with date := some now } hall
    obtain ⟨d1, p1, c1, q1, i1, a1, l1⟩ := applyTags_fields f.tags _ _ hb2
    have d1' : b2.date = some now := d1
    have p1' : b2.periode = lastSet (f.tags.filterMap periodeOf) none := p1
    have c1' : b2.hc = lastSet (f.tags.filterMap hcOf) none := c1
    have q1' : b2.hp = lastSet (f.tags.filterMap hpOf) none := q1
    have i1' : b2.iinst = lastSet (f.tags.filterMap iinstOf) none := i1
    have a1' : b2.papp = lastSet (f.tags.filterMap pappOf) none := a1
    obtain ⟨pv, hpv⟩ := lastSet_ne_nil_some (f.tags.filterMap periodeOf) none
      (any_isSome_filterMap_ne_nil hper)
    obtain ⟨v1, hv1⟩ := lastSet_ne_nil_some (f.tags.filterMap hcOf) none
      (any_isSome_filterMap_ne_nil hhc)
    obtain ⟨v2, hv2⟩ := lastSet_ne_nil_some (f.tags.filterMap hpOf) none
      (any_isSome_filterMap_ne_nil hhp)
    obtain ⟨v3, hv3⟩ := lastSet_ne_nil_some (f.tags.filterMap iinstOf) none
      (any_isSome_filterMap_ne_nil hii)
    have hnil : f.tags.filterMap pappOf = [] := not_any_isSome_filterMap_nil hpa
    have hbpa : b2.papp = none := by rw [a1', hnil]; rfl
    have hbuild : HcInfosBuilder.build b2 = .error (.FrameError "Missing papp") := by
      unfold HcInfosBuilder.build
      rw [d1', p1'.trans hpv, c1'.trans hv1, q1'.trans hv2, i1'.trans hv3, hbpa]
    unfold HcInfos.fromFrame
    rw [hb2]
    dsimp only
    rw [hbuild]
  · intro r h
    obtain ⟨b2, happ, hb⟩ := fromFrame_ok_elim now f r h
    obtain ⟨d1, p1, c1, q1, i1, a1, l1⟩ := applyTags_fields f.tags _ _ happ
    obtain ⟨bd, bp, bhc, bhp, bii, bpa, bal⟩ := build_fields b2 r hb
    have p1' : b2.periode = lastSet (f.tags.filterMap periodeOf) none := p1
    have c1' : b2.hc = lastSet (f.tags.filterMap hcOf) none := c1
    have q1' : b2.hp = lastSet (f.tags.filterMap hpOf) none := q1
    have i1' : b2.iinst = lastSet (f.tags.filterMap iinstOf) none := i1
    have a1' : b2.papp = lastSet (f.tags.filterMap pappOf) none := a1
    refine ⟨?_, ?_, ?_, ?_, ?_⟩
    · exact filterMap_ne_nil_any (lastSet_none_ne_nil (p1' ▸ bp))
    · exact filterMap_ne_nil_any (lastSet_none_ne_nil (c1' ▸ bhc))
    · exact filterMap_ne_nil_any (lastSet_none_ne_nil (q1' ▸ bhp))
    · exact filterMap_ne_nil_any (lastSet_none_ne_nil (i1' ▸ bii))
    · exact filterMap_ne_nil_any (lastSet_none_ne_nil (a1' ▸ bpa))

/-- Witness for C2: the complete-but-for-PAPP frame
[PTEC(HC), HCHC 1, HCHP 2, IINST 3] makes extraction fail with
"Missing papp". -/
theorem hc_from_missing_papp_witness :
    HcInfos.fromFrame ⟨0⟩ ⟨[.PTEC .HC, .HCHC 1, .HCHP 2, .IINST 3]⟩
      = .err (.FrameError "Missing papp") :=
  (hc_from_missing_papp ⟨0⟩ ⟨[.PTEC .HC, .HCHC 1, .HCHP 2, .IINST 3]⟩).1
    (by decide) (by decide) (by decide) (by decide) (by decide) (by decide)

/-- C7: when extraction returns a record, its alert flag is true exactly
when the frame holds an over-current warning (ADPS) tag, whatever that
tag's payload. -/
theorem hc_from_alerte_iff_adps (now : DateTime) (f : Frame) (r : HcInfos)
    (h : HcInfos.fromFrame now f = .ok r) :
    r.alerte = f.tags.any isADPS := by
  obtain ⟨b2, happ, hb⟩ := fromFrame_ok_elim now f r h
  obtain ⟨-, -, -, -, -, -, l1⟩ := applyTags_fields f.tags _ _ happ
  obtain ⟨-, -, -, -, -, -, bal⟩ := build_fields b2 r hb
  have l1' : b2.alerte = (false || f.tags.any isADPS) := l1
  rw [bal, l1', Bool.false_or]

/-- Witness for C7: a frame with an ADPS tag yields alert = true, which
equals the ADPS-presence check. -/
theorem hc_from_alerte_iff_adps_witness :
    (⟨⟨0⟩, "HP", 1, 2, 3, 4, true⟩ : HcInfos).alerte
      = (⟨[.PTEC .HP, .HCHC 1, .HCHP 2, .IINST 3, .PAPP 4, .ADPS 99]⟩ :
          Frame).tags.any isADPS :=
  hc_from_alerte_iff_adps ⟨0⟩
    ⟨[.PTEC .HP, .HCHC 1, .HCHP 2, .IINST 3, .PAPP 4, .ADPS 99]⟩
    ⟨⟨0⟩, "HP", 1, 2, 3, 4, true⟩ (by decide)

/-- C8: when extraction returns a record, each recorded numeric field
(hc, hp, iinst, papp) holds the payload of the last occurrence of its
tag in frame order, so a later duplicate overwrites an earlier one. -/
theorem hc_from_last_write_wins (now : DateTime) (f : Frame) (r : HcInfos)
    (h : HcInfos.fromFrame now f = .ok r) :
    (f.tags.filterMap hcOf).getLast? = some r.hc ∧
    (f.tags.filterMap hpOf).getLast? = some r.hp ∧
    (f.tags.filterMap iinstOf).getLast? = some r.iinst ∧
    (f.tags.filterMap pappOf).getLast? = some r.papp := by
  obtain ⟨b2, happ, hb⟩ := fromFrame_ok_elim now f r h
  obtain ⟨-, -, c1, q1, i1, a1, -⟩ := applyTags_fields f.tags _ _ happ
  obtain ⟨-, -, bhc, bhp, bii, bpa, -⟩ := build_fields b2 r hb
  have c1' : b2.hc = lastSet (f.tags.filterMap hcOf) none := c1
  have q1' : b2.hp = lastSet (f.tags.filterMap hpOf) none := q1
  have i1' : b2.iinst = lastSet (f.tags.filterMap iinstOf) none := i1
  have a1' : b2.papp = lastSet (f.tags.filterMap pappOf) none := a1
  exact ⟨lastSet_none_getLast? (c1' ▸ bhc), lastSet_none_getLast? (q1' ▸ bhp),
    lastSet_none_getLast? (i1' ▸ bii), lastSet_none_getLast? (a1' ▸ bpa)⟩

/-- Witness for C8: with duplicated HCHC and PAPP tags the record holds
the later payloads (5 and 7). -/
theorem hc_from_last_write_wins_witness :
    ((⟨[.PTEC .HC, .HCHC 1, .HCHC 5, .HCHP 2, .IINST 3, .PAPP 4, .PAPP 7]⟩ :
        Frame).tags.filterMap hcOf).getLast? = some 5 ∧
    ((⟨[.PTEC .HC, .HCHC 1, .HCHC 5, .HCHP 2, .IINST 3, .PAPP 4, .PAPP 7]⟩ :
        Frame).tags.filterMap hpOf).getLast? = some 2 ∧
    ((⟨[.PTEC .HC, .HCHC 1, .HCHC 5, .HCHP 2, .IINST 3, .PAPP 4, .PAPP 7]⟩ :
        Frame).tags.filterMap iinstOf).getLast? = some 3 ∧
    ((⟨[.PTEC .HC, .HCHC 1, .HCHC 5, .HCHP 2, .IINST 3, .PAPP 4, .PAPP 7]⟩ :
        Frame).tags.filterMap pappOf).getLast? = some 7 :=
  hc_from_last_write_wins ⟨0⟩
    ⟨[.PTEC .HC, .HCHC 1, .HCHC 5, .HCHP 2, .IINST 3, .PAPP 4, .PAPP 7]⟩
    ⟨⟨0⟩, "HC", 5, 2, 3, 7, false⟩ (by decide)

/-- Does the extraction outcome carry the "Missing date" error? -/
def isMissingDate : HcResult → Bool
  | .err (.FrameError m) => decide (m = "Missing date")
  | _ => false

/-- C9: the date slot is filled with the capture timestamp before the tag
pass, so extraction never fails with the missing-date error. -/
theorem hc_from_no_missing_date (now : DateTime) (f : Frame) :
    isMissingDate (HcInfos.fromFrame now f) = false := by
  unfold HcInfos.fromFrame
  cases happ : applyTags { HcInfosBuilder.new with date := some now } f.tags with
  | error m => rfl
  | ok b2 =>
    obtain ⟨d1, -, -, -, -, -, -⟩ := applyTags_fields f.tags _ _ happ
    have d1' : b2.date = some now := d1
    dsimp only
    rcases b2 with ⟨d, p, x1, x2, x3, x4, al⟩
    dsimp only at d1'
    subst d1'
    cases p <;> cases x1 <;> cases x2 <;> cases x3 <;> cases x4 <;> rfl

lemma read_char_cons (c : Nat) (r : List Nat) (h : c ≠ 4) :
    read_char (c :: r) = .ok (c, r) := by
  simp [read_char, h]

/-- Reading up to the separator returns exactly the separator-free
prefix and the bytes after the separator. -/
lemma read_to_sep_append : ∀ (s : List Nat), (∀ b ∈ s, b ≠ 4 ∧ b ≠ 32) →
    ∀ r : List Nat, read_to_sep (s ++ 32 :: r) = .ok (s, r) := by
  intro s
  induction s with
  | nil => intro _ r; simp [read_to_sep]
  | cons c cs ih =>
    intro hgood r
    have hc := hgood c (by simp)
    simp only [List.cons_append, read_to_sep, List.append_eq]
    rw [if_neg hc.1, if_neg hc.2]
    rw [ih (fun b hb => hgood b (by simp [hb])) r]

/-- One correctly encoded group at the head of the input: the scanner
checks the checksum (which always passes), decodes the tag and
continues on the remaining bytes with one unit of fuel consumed. -/
lemma read_frame_aux_group (fuel : Nat) (lbl val rest : List Nat)
    (hl : ∀ b ∈ lbl, b ≠ 4 ∧ b ≠ 32) (hv : ∀ b ∈ val, b ≠ 4 ∧ b ≠ 32) :
    read_frame_aux (fuel + 1)
      (10 :: (lbl ++ 32 :: (val ++ 32 :: checksum lbl val :: 13 :: rest)))
      = match parse_tag lbl val with
        | .error e => .error e
        | .ok tag =>
          match read_frame_aux fuel rest with
          | .error e => .error e
          | .ok tags => .ok (tag :: tags) := by
  have hck := checksum_range lbl val
  simp only [read_frame_aux]
  rw [read_char_cons 10 _ (by decide)]
  dsimp only
  rw [if_neg (by decide : ¬ (10 : Nat) = 3)]
  rw [if_neg (by decide : ¬ (10 : Nat) ≠ 10)]
  rw [read_to_sep_append lbl hl _]
  dsimp only
  rw [read_to_sep_append val hv _]
  dsimp only
  rw [read_char_cons _ _ (by omega : checksum lbl val ≠ 4)]
  dsimp only
  rw [if_neg (by simp : ¬ checksum lbl val ≠ checksum lbl val)]
  cases hp : parse_tag lbl val with
  | error e => rfl
  | ok tag =>
    have he : expect_char (13 :: rest) 13 = .ok rest := by
      simp [expect_char, read_char]
    rw [he]

/-- A group whose checksum byte was replaced by a byte that differs from
the computed checksum (and is not the EOT marker) makes the scanner
report the checksum error immediately. -/
lemma read_frame_aux_corrupt (fuel : Nat) (lbl val junk : List Nat) (b : Nat)
    (hl : ∀ x ∈ lbl, x ≠ 4 ∧ x ≠ 32) (hv : ∀ x ∈ val, x ≠ 4 ∧ x ≠ 32)
    (hb4 : b ≠ 4) (hbck : b ≠ checksum lbl val) :
    read_frame_aux (fuel + 1) (10 :: (lbl ++ 32 :: (val ++ 32 :: b :: junk)))
      = .error .ChecksumError := by
  simp only [read_frame_aux]
  rw [read_char_cons 10 _ (by decide)]
  dsimp only
  rw [if_neg (by decide : ¬ (10 : Nat) = 3)]
  rw [if_neg (by decide : ¬ (10 : Nat) ≠ 10)]
  rw [read_to_sep_append lbl hl _]
  dsimp only
  rw [read_to_sep_append val hv _]
  dsimp only
  rw [read_char_cons b _ hb4]
  dsimp only
  rw [if_pos hbck]

/-- Encoding of one (label, value) group: group-open, label, separator,
value, separator, the computed checksum byte, group-close. -/
def encodeGroup (lbl val : List Nat) : List Nat :=
  10 :: (lbl ++ 32 :: (val ++ 32 :: checksum lbl val :: [13]))

/-- Concatenated encoding of a sequence of (label, value) pairs. -/
def encodeGroups : List (List Nat × List Nat) → List Nat
  | [] => []
  | (l, v) :: ps => encodeGroup l v ++ encodeGroups ps

/-- A full well-formed frame encoding: start marker, the groups, end
marker. -/
def encodeFrame (ps : List (List Nat × List Nat)) : List Nat :=
  2 :: (encodeGroups ps ++ [3])

lemma encodeGroup_append (lbl val rest : List Nat) :
    encodeGroup lbl val ++ rest
      = 10 :: (lbl ++ 32 :: (val ++ 32 :: checksum lbl val :: 13 :: rest)) := by
  simp [encodeGroup]

lemma encodeGroups_length : ∀ ps : List (List Nat × List Nat),
    ps.length ≤ (encodeGroups ps).length := by
  intro ps
  induction ps with
  | nil => simp [encodeGroups]
  | cons p ps ih =>
    obtain ⟨l, v⟩ := p
    simp only [encodeGroups, encodeGroup, List.length_append, List.length_cons]
    simp only [List.length_cons] at ih ⊢
    omega

/-- Scanning the encoding of a pair sequence followed by arbitrary
suffix bytes decodes exactly the pairs' tags in order and continues on
the suffix, each group consuming one unit of fuel. -/
lemma read_frame_aux_encodeGroups :
    ∀ (ps : List (List Nat × List Nat)) (tags : List Tag) (n : Nat)
      (suffix : List Nat),
    (∀ p ∈ ps, (∀ b ∈ p.1, b ≠ 4 ∧ b ≠ 32) ∧ (∀ b ∈ p.2, b ≠ 4 ∧ b ≠ 32)) →
    ps.map (fun p => parse_tag p.1 p.2) = tags.map Except.ok →
    read_frame_aux (n + ps.length) (encodeGroups ps ++ suffix)
      = match read_frame_aux n suffix with
        | .error e => .error e
        | .ok ts => .ok (tags ++ ts) := by
  intro ps
  induction ps with
  | nil =>
    intro tags n suffix _ hparse
    cases tags with
    | cons t ts => simp at hparse
    | nil =>
      simp only [encodeGroups, List.nil_append, List.length_nil, Nat.add_zero]
      cases read_frame_aux n suffix <;> simp
  | cons p ps ih =>
    intro tags n suffix hgood hparse
    cases tags with
    | nil => simp at hparse
    | cons t ts =>
      obtain ⟨l, v⟩ := p
      simp only [List.map_cons] at hparse
      injection hparse with hp1 hps
      simp only [encodeGroups]
      rw [List.append_assoc, encodeGroup_append]
      have hlen : n + ((l, v) :: ps).length = (n + ps.length) + 1 := by
        simp only [List.length_cons]
        omega
      rw [hlen]
      rw [read_frame_aux_group (n + ps.length) l v _
        (hgood (l, v) (by simp)).1 (hgood (l, v) (by simp)).2]
      rw [hp1]
      dsimp only
      rw [ih ts n suffix (fun q hq => hgood q (by simp [hq])) hps]
      cases read_frame_aux n suffix with
      | error e => rfl
      | ok ts2 => dsimp only; rw [List.cons_append]

/-- C4: scanning the well-formed encoding of any pair sequence (labels
and values free of separator and EOT bytes, each pair decodable) yields
a Frame holding exactly the decoded tags, in order. -/
theorem scan_next_frame_roundtrip (ps : List (List Nat × List Nat))
    (tags : List Tag)
    (hgood : ∀ p ∈ ps, (∀ b ∈ p.1, b ≠ 4 ∧ b ≠ 32) ∧ (∀ b ∈ p.2, b ≠ 4 ∧ b ≠ 32))
    (hparse : ps.map (fun p => parse_tag p.1 p.2) = tags.map Except.ok) :
    Frame.next_frame (encodeFrame ps) = .ok ⟨tags⟩ := by
  unfold Frame.next_frame encodeFrame
  have hskip : skip_to (2 :: (encodeGroups ps ++ [3])) 2
      = .ok (encodeGroups ps ++ [3]) := by
    simp [skip_to]
  rw [hskip]
  dsimp only
  unfold read_frame
  have hk := encodeGroups_length ps
  have hfuel : (encodeGroups ps ++ [3]).length + 1
      = ((encodeGroups ps).length + 2 - ps.length) + ps.length := by
    simp only [List.length_append, List.length_cons, List.length_nil]
    omega
  rw [hfuel]
  rw [read_frame_aux_encodeGroups ps tags _ [3] hgood hparse]
  obtain ⟨m, hm⟩ : ∃ m, (encodeGroups ps).length + 2 - ps.length = m + 1 :=
    ⟨(encodeGroups ps).length + 1 - ps.length, by omega⟩
  rw [hm]
  have h3 : read_frame_aux (m + 1) [3] = .ok [] := by
    simp only [read_frame_aux]
    rw [read_char_cons 3 _ (by decide)]
    dsimp only
    rw [if_pos rfl]
  rw [h3]
  dsimp only
  rw [List.append_nil]

/-- Witness for C4: a two-group frame (PAPP 00380, IINST 008) decodes to
exactly those two tags in order. -/
theorem scan_next_frame_roundtrip_witness :
    Frame.next_frame (encodeFrame
      [(strBytes "PAPP", strBytes "00380"), (strBytes "IINST", strBytes "008")])
      = .ok ⟨[Tag.PAPP 380, Tag.IINST 8]⟩ :=
  scan_next_frame_roundtrip
    [(strBytes "PAPP", strBytes "00380"), (strBytes "IINST", strBytes "008")]
    [Tag.PAPP 380, Tag.IINST 8] (by decide) (by decide)

/-- C5 (amended): inside an otherwise well-formed frame, replacing a
group's checksum byte by any byte that differs from the computed
checksum and is not the end-of-transmission marker 0x04 makes the scan
return the checksum error and no Frame, whatever bytes follow. -/
theorem scan_next_frame_checksum_mismatch
    (front : List (List Nat × List Nat)) (ftags : List Tag)
    (lbl val junk : List Nat) (b : Nat)
    (hgood : ∀ p ∈ front,
      (∀ x ∈ p.1, x ≠ 4 ∧ x ≠ 32) ∧ (∀ x ∈ p.2, x ≠ 4 ∧ x ≠ 32))
    (hparse : front.map (fun p => parse_tag p.1 p.2) = ftags.map Except.ok)
    (hl : ∀ x ∈ lbl, x ≠ 4 ∧ x ≠ 32) (hv : ∀ x ∈ val, x ≠ 4 ∧ x ≠ 32)
    (hb4 : b ≠ 4) (hbck : b ≠ checksum lbl val) :
    Frame.next_frame
      (2 :: (encodeGroups front ++ (10 :: (lbl ++ 32 :: (val ++ 32 :: b :: junk)))))
      = .error .ChecksumError := by
  unfold Frame.next_frame
  have hskip : skip_to
      (2 :: (encodeGroups front ++ (10 :: (lbl ++ 32 :: (val ++ 32 :: b :: junk))))) 2
      = .ok (encodeGroups front ++ (10 :: (lbl ++ 32 :: (val ++ 32 :: b :: junk)))) := by
    simp [skip_to]
  rw [hskip]
  dsimp only
  unfold read_frame
  have hk := encodeGroups_length front
  have hfuel : (encodeGroups front ++ (10 :: (lbl ++ 32 :: (val ++ 32 :: b :: junk)))).length + 1
      = (((encodeGroups front).length
          + (10 :: (lbl ++ 32 :: (val ++ 32 :: b :: junk))).length + 1 - front.length)
        + front.length) := by
    simp only [List.length_append, List.length_cons]
    omega
  rw [hfuel]
  rw [read_frame_aux_encodeGroups front ftags _ _ hgood hparse]
  obtain ⟨m, hm⟩ : ∃ m, (encodeGroups front).length
      + (10 :: (lbl ++ 32 :: (val ++ 32 :: b :: junk))).length + 1 - front.length
      = m + 1 := by
    refine ⟨(encodeGroups front).length
      + (10 :: (lbl ++ 32 :: (val ++ 32 :: b :: junk))).length - front.length, ?_⟩
    simp only [List.length_cons]
    omega
  rw [hm]
  rw [read_frame_aux_corrupt m lbl val junk b hl hv hb4 hbck]

/-- Counterexample for C5 as stated: corrupting the checksum byte of the
group (PAPP, 00380) to 0x04 — a byte different from the computed
checksum 0x2C — makes the scan return the end-of-transmission error,
not the checksum-mismatch error. -/
theorem scan_next_frame_corrupt_eot_cex :
    (4 : Nat) ≠ checksum (strBytes "PAPP") (strBytes "00380") ∧
    Frame.next_frame
      (2 :: (encodeGroups [] ++ (10 :: (strBytes "PAPP"
        ++ 32 :: (strBytes "00380" ++ 32 :: 4 :: [13, 3])))))
      = .error .EndOfTransmission ∧
    (Except.error TeleinfoError.EndOfTransmission : Except TeleinfoError Frame)
      ≠ .error .ChecksumError := by
  refine ⟨by decide, by decide, by decide⟩

/-- Witness for C5 (amended): after a valid IINST group, a PAPP group
whose checksum byte is corrupted to 0x2D (instead of 0x2C) yields the
checksum error. -/
theorem scan_next_frame_checksum_mismatch_witness :
    Frame.next_frame
      (2 :: (encodeGroups [(strBytes "IINST", strBytes "008")]
        ++ (10 :: (strBytes "PAPP" ++ 32 :: (strBytes "00380" ++ 32 :: 45 :: [13, 3])))))
      = .error .ChecksumError :=
  scan_next_frame_checksum_mismatch [(strBytes "IINST", strBytes "008")]
    [Tag.IINST 8] (strBytes "PAPP") (strBytes "00380") [13, 3] 45
    (by decide) (by decide) (by decide) (by decide) (by decide) (by decide)
